import Mathlib

/-!
Verification of the temporal aggregation engine of the bad-deeds tracker
(`backend/server.py`).  The analytic endpoints are embedded shallowly:

* a `Date` model with the semantics of Python `datetime.date`
  (proleptic Gregorian calendar, day arithmetic via `timedelta`);
* the gap-filling loops of `get_recent_stats`, `get_streak_analysis` and
  `get_monthly_stats` as fuel-indexed recursions, the fuel being the exact
  number of iterations the `while current_date <= end_date` loop performs;
* the streak fold, the day-of-week profiler and the monthly trend
  classifier as pure functions over the grouped results the Mongo
  aggregation pipelines hand back.

Python `float` arithmetic in the analytics (window averages, percentages)
is modelled by exact rationals; `round(x, k)` is modelled as exact
half-even rounding at `k` decimal digits.  A computation that raises
`ZeroDivisionError` in the source is modelled by `Option.none`.
-/

namespace BadDeeds

/-! ## Calendar model (Python `datetime.date`, proleptic Gregorian) -/

structure Date where
  year : ℕ
  month : ℕ
  day : ℕ
deriving DecidableEq, Repr

/-- Gregorian leap-year rule, as used by `datetime.date`. -/
def isLeap (y : ℕ) : Bool :=
  (y % 4 == 0 && y % 100 != 0) || (y % 400 == 0)

/-- Number of days in month `m` of year `y`. -/
def monthLen (y m : ℕ) : ℕ :=
  if m = 2 then (if isLeap y then 29 else 28)
  else if m = 4 ∨ m = 6 ∨ m = 9 ∨ m = 11 then 30
  else 31

/-- Days of year `y` that precede the first day of month `m`. -/
def daysBeforeMonth (y m : ℕ) : ℕ :=
  ((List.range (m - 1)).map (fun k => monthLen y (k + 1))).sum

/-- Days that precede January 1 of year `y` (proleptic Gregorian). -/
def daysBeforeYear (y : ℕ) : ℕ :=
  365 * (y - 1) + (y - 1) / 4 + (y - 1) / 400 - (y - 1) / 100

/-- Rata-die ordinal of a date: `Date.ordinal ⟨1,1,1⟩ = 1`, matching
`datetime.date.toordinal`. -/
def Date.ordinal (d : Date) : ℕ :=
  daysBeforeYear d.year + daysBeforeMonth d.year d.month + d.day

/-- A well-formed `datetime.date` value. -/
def Date.valid (d : Date) : Prop :=
  1 ≤ d.year ∧ 1 ≤ d.month ∧ d.month ≤ 12 ∧ 1 ≤ d.day ∧
    d.day ≤ monthLen d.year d.month

instance (d : Date) : Decidable d.valid := by
  unfold Date.valid; exact inferInstance

/-- Python `date` comparison `a <= b`: chronological, i.e. lexicographic on
`(year, month, day)`. -/
def Date.le (a b : Date) : Prop :=
  a.year < b.year ∨
    (a.year = b.year ∧
      (a.month < b.month ∨ (a.month = b.month ∧ a.day ≤ b.day)))

instance (a b : Date) : Decidable (a.le b) := by
  unfold Date.le; exact inferInstance

/-- Strict chronological order on dates. -/
def Date.lt (a b : Date) : Prop :=
  a.year < b.year ∨
    (a.year = b.year ∧
      (a.month < b.month ∨ (a.month = b.month ∧ a.day < b.day)))

/-- The day after `d` (`d + timedelta(days=1)`). -/
def nextDay (d : Date) : Date :=
  if d.day < monthLen d.year d.month then ⟨d.year, d.month, d.day + 1⟩
  else if d.month < 12 then ⟨d.year, d.month + 1, 1⟩
  else ⟨d.year + 1, 1, 1⟩

/-- The day before `d` (`d - timedelta(days=1)`). -/
def prevDay (d : Date) : Date :=
  if 1 < d.day then ⟨d.year, d.month, d.day - 1⟩
  else if 1 < d.month then ⟨d.year, d.month - 1, monthLen d.year (d.month - 1)⟩
  else ⟨d.year - 1, 12, 31⟩

/-- `d + timedelta(days=n)`. -/
def addDays (d : Date) : ℕ → Date
  | 0 => d
  | n + 1 => addDays (nextDay d) n

/-- `d - timedelta(days=n)`. -/
def subDays (d : Date) : ℕ → Date
  | 0 => d
  | n + 1 => subDays (prevDay d) n

lemma monthLen_pos (y m : ℕ) : 0 < monthLen y m := by
  unfold monthLen; split_ifs <;> norm_num

lemma monthLen_le (y m : ℕ) : monthLen y m ≤ 31 := by
  unfold monthLen; split_ifs <;> norm_num

lemma daysBeforeMonth_zero (y : ℕ) : daysBeforeMonth y 0 = 0 := rfl

lemma daysBeforeMonth_one (y : ℕ) : daysBeforeMonth y 1 = 0 := rfl

lemma daysBeforeMonth_succ (y m : ℕ) (hm : 1 ≤ m) :
    daysBeforeMonth y (m + 1) = daysBeforeMonth y m + monthLen y m := by
  unfold daysBeforeMonth
  have h1 : m + 1 - 1 = (m - 1) + 1 := by omega
  have h2 : m - 1 + 1 = m := by omega
  rw [h1, List.range_succ, List.map_append, List.sum_append]
  simp [h2]

lemma daysBeforeMonth_step (y m : ℕ) :
    daysBeforeMonth y m ≤ daysBeforeMonth y (m + 1) := by
  rcases Nat.eq_zero_or_pos m with h | h
  · subst h; simp [daysBeforeMonth]
  · rw [daysBeforeMonth_succ y m h]; omega

lemma daysBeforeMonth_mono (y : ℕ) {m m' : ℕ} (h : m ≤ m') :
    daysBeforeMonth y m ≤ daysBeforeMonth y m' := by
  induction m', h using Nat.le_induction with
  | base => exact le_rfl
  | succ k hk ih => exact le_trans ih (daysBeforeMonth_step y k)

/-- The whole year: the sum of all twelve month lengths. -/
lemma daysBeforeMonth_thirteen (y : ℕ) :
    daysBeforeMonth y 13 = if isLeap y then 366 else 365 := by
  have hr : List.range 12 = [0, 1, 2, 3, 4, 5, 6, 7, 8, 9, 10, 11] := by
    decide
  unfold daysBeforeMonth
  norm_num [hr, monthLen]
  by_cases h : isLeap y <;> simp [h]

set_option maxHeartbeats 1600000 in
lemma daysBeforeYear_succ (y : ℕ) (hy : 1 ≤ y) :
    daysBeforeYear (y + 1) =
      daysBeforeYear y + (if isLeap y then 366 else 365) := by
  have hiff : isLeap y = true ↔ ((y % 4 = 0 ∧ ¬ y % 100 = 0) ∨ y % 400 = 0) := by
    simp [isLeap]
  by_cases h : isLeap y = true
  · rw [if_pos h]; rw [hiff] at h; unfold daysBeforeYear; omega
  · rw [if_neg h]; rw [hiff] at h; unfold daysBeforeYear; omega

lemma daysBeforeYear_mono {y y' : ℕ} (hy : 1 ≤ y) (h : y + 1 ≤ y') :
    daysBeforeYear (y + 1) ≤ daysBeforeYear y' := by
  induction y', h using Nat.le_induction with
  | base => exact le_rfl
  | succ k hk ih =>
      refine le_trans ih ?_
      rw [daysBeforeYear_succ k (by omega)]
      split_ifs <;> omega

lemma ordinal_le_yearEnd {d : Date} (h : d.valid) :
    d.ordinal ≤ daysBeforeYear (d.year + 1) := by
  obtain ⟨hy, hm1, hm12, hd1, hdl⟩ := h
  have h1 : d.ordinal ≤ daysBeforeYear d.year + daysBeforeMonth d.year (d.month + 1) := by
    unfold Date.ordinal
    rw [daysBeforeMonth_succ d.year d.month hm1]
    omega
  have h2 : daysBeforeMonth d.year (d.month + 1) ≤ daysBeforeMonth d.year 13 :=
    daysBeforeMonth_mono d.year (by omega)
  have h3 : daysBeforeYear (d.year + 1) =
      daysBeforeYear d.year + (if isLeap d.year then 366 else 365) :=
    daysBeforeYear_succ d.year hy
  have h4 := daysBeforeMonth_thirteen d.year
  split_ifs at h3 h4 <;> omega

lemma yearStart_lt_ordinal {d : Date} (h : d.valid) :
    daysBeforeYear d.year < d.ordinal := by
  obtain ⟨hy, hm1, hm12, hd1, hdl⟩ := h
  unfold Date.ordinal
  omega

/-- `Date.ordinal` is strictly monotone on valid dates w.r.t. the
chronological (lexicographic) order. -/
lemma ordinal_lt_of_lt {a b : Date} (ha : a.valid) (hb : b.valid)
    (h : a.lt b) : a.ordinal < b.ordinal := by
  obtain ⟨hay, ham1, ham12, had1, hadl⟩ := ha
  obtain ⟨hby, hbm1, hbm12, hbd1, hbdl⟩ := hb
  rcases h with hy | ⟨hy, hm | ⟨hm, hd⟩⟩
  · have h1 : a.ordinal ≤ daysBeforeYear (a.year + 1) :=
      ordinal_le_yearEnd ⟨hay, ham1, ham12, had1, hadl⟩
    have h2 : daysBeforeYear (a.year + 1) ≤ daysBeforeYear b.year :=
      daysBeforeYear_mono hay hy
    have h3 : daysBeforeYear b.year < b.ordinal :=
      yearStart_lt_ordinal ⟨hby, hbm1, hbm12, hbd1, hbdl⟩
    omega
  · have h1 : daysBeforeMonth a.year (a.month + 1) ≤ daysBeforeMonth a.year b.month :=
      daysBeforeMonth_mono a.year (by omega)
    have h2 := daysBeforeMonth_succ a.year a.month ham1
    unfold Date.ordinal
    rw [← hy]
    omega
  · unfold Date.ordinal
    rw [← hy, ← hm]
    omega

/-- On valid dates, Python date comparison agrees with ordinal comparison. -/
lemma le_iff_ordinal_le {a b : Date} (ha : a.valid) (hb : b.valid) :
    a.le b ↔ a.ordinal ≤ b.ordinal := by
  constructor
  · intro h
    rcases h with hy | ⟨hy, hm | ⟨hm, hd⟩⟩
    · exact le_of_lt (ordinal_lt_of_lt ha hb (Or.inl hy))
    · exact le_of_lt (ordinal_lt_of_lt ha hb (Or.inr ⟨hy, Or.inl hm⟩))
    · rcases Nat.lt_or_ge a.day b.day with hlt | hge
      · exact le_of_lt (ordinal_lt_of_lt ha hb (Or.inr ⟨hy, Or.inr ⟨hm, hlt⟩⟩))
      · have : a.day = b.day := by omega
        unfold Date.ordinal
        rw [hy, hm, this]
  · intro h
    by_contra hn
    have hlt : b.lt a := by
      unfold Date.le at hn
      unfold Date.lt
      omega
    have := ordinal_lt_of_lt hb ha hlt
    omega

lemma ordinal_inj {a b : Date} (ha : a.valid) (hb : b.valid)
    (h : a.ordinal = b.ordinal) : a = b := by
  by_contra hne
  have htri : a.lt b ∨ b.lt a := by
    unfold Date.lt
    have hfields : ¬ (a.year = b.year ∧ a.month = b.month ∧ a.day = b.day) := by
      intro hab
      exact hne (by cases a; cases b; simp_all)
    omega
  rcases htri with hl | hl
  · exact absurd h (Nat.ne_of_lt (ordinal_lt_of_lt ha hb hl))
  · exact absurd h.symm (Nat.ne_of_lt (ordinal_lt_of_lt hb ha hl))

lemma nextDay_valid {d : Date} (h : d.valid) : (nextDay d).valid := by
  obtain ⟨hy, hm1, hm12, hd1, hdl⟩ := h
  unfold nextDay
  split_ifs with h1 h2
  · exact ⟨hy, hm1, hm12, Nat.le_succ_of_le hd1, h1⟩
  · exact ⟨hy, Nat.le_succ_of_le hm1, h2, le_rfl, monthLen_pos d.year (d.month + 1)⟩
  · exact ⟨Nat.le_succ_of_le hy, le_rfl, by norm_num, le_rfl, monthLen_pos (d.year + 1) 1⟩

lemma ordinal_nextDay {d : Date} (h : d.valid) :
    (nextDay d).ordinal = d.ordinal + 1 := by
  obtain ⟨hy, hm1, hm12, hd1, hdl⟩ := h
  unfold nextDay
  split_ifs with h1 h2
  · show daysBeforeYear d.year + daysBeforeMonth d.year d.month + (d.day + 1) =
      daysBeforeYear d.year + daysBeforeMonth d.year d.month + d.day + 1
    omega
  · have hde : d.day = monthLen d.year d.month := by omega
    have hs := daysBeforeMonth_succ d.year d.month hm1
    show daysBeforeYear d.year + daysBeforeMonth d.year (d.month + 1) + 1 =
      daysBeforeYear d.year + daysBeforeMonth d.year d.month + d.day + 1
    omega
  · have hm : d.month = 12 := by omega
    have hml : monthLen d.year 12 = 31 := by norm_num [monthLen]
    have hde : d.day = 31 := by rw [hm] at hdl h1; omega
    have h13 := daysBeforeMonth_thirteen d.year
    have h12 : daysBeforeMonth d.year 13 =
        daysBeforeMonth d.year 12 + monthLen d.year 12 :=
      daysBeforeMonth_succ d.year 12 (by norm_num)
    have hsy := daysBeforeYear_succ d.year hy
    show daysBeforeYear (d.year + 1) + daysBeforeMonth (d.year + 1) 1 + 1 =
      daysBeforeYear d.year + daysBeforeMonth d.year d.month + d.day + 1
    have hb1 : daysBeforeMonth (d.year + 1) 1 = 0 := daysBeforeMonth_one _
    rw [hm, hde]
    split_ifs at hsy h13 <;> omega

lemma addDays_valid {d : Date} (h : d.valid) (n : ℕ) : (addDays d n).valid := by
  induction n generalizing d with
  | zero => exact h
  | succ k ih => exact ih (nextDay_valid h)

lemma ordinal_addDays {d : Date} (h : d.valid) (n : ℕ) :
    (addDays d n).ordinal = d.ordinal + n := by
  induction n generalizing d with
  | zero => rfl
  | succ k ih =>
      have := ih (nextDay_valid h)
      unfold addDays
      rw [this, ordinal_nextDay h]
      omega

lemma ordinal_min : (Date.mk 1 1 1).ordinal = 1 := rfl

lemma prevDay_valid_ordinal {d : Date} (h : d.valid) (hne : d ≠ ⟨1, 1, 1⟩) :
    (prevDay d).valid ∧ (prevDay d).ordinal + 1 = d.ordinal := by
  obtain ⟨hy, hm1, hm12, hd1, hdl⟩ := h
  unfold prevDay
  split_ifs with h1 h2
  · refine ⟨⟨hy, hm1, hm12, (by omega : 1 ≤ d.day - 1),
      (by omega : d.day - 1 ≤ monthLen d.year d.month)⟩, ?_⟩
    show daysBeforeYear d.year + daysBeforeMonth d.year d.month + (d.day - 1) + 1 =
      daysBeforeYear d.year + daysBeforeMonth d.year d.month + d.day
    omega
  · have hde : d.day = 1 := by omega
    have hmm : d.month - 1 + 1 = d.month := by omega
    have hs := daysBeforeMonth_succ d.year (d.month - 1) (by omega)
    rw [hmm] at hs
    refine ⟨⟨hy, (by omega : 1 ≤ d.month - 1), (by omega : d.month - 1 ≤ 12),
      monthLen_pos d.year (d.month - 1), le_rfl⟩, ?_⟩
    show daysBeforeYear d.year + daysBeforeMonth d.year (d.month - 1) +
        monthLen d.year (d.month - 1) + 1 =
      daysBeforeYear d.year + daysBeforeMonth d.year d.month + d.day
    omega
  · have hme : d.month = 1 := by omega
    have hde : d.day = 1 := by omega
    have hy2 : 2 ≤ d.year := by
      rcases Nat.lt_or_ge d.year 2 with hlt | hge
      · exfalso
        apply hne
        have : d.year = 1 := by omega
        cases d
        simp_all
      · exact hge
    have hyy : d.year - 1 + 1 = d.year := by omega
    have hsy := daysBeforeYear_succ (d.year - 1) (by omega)
    rw [hyy] at hsy
    have h13 := daysBeforeMonth_thirteen (d.year - 1)
    have h12 : daysBeforeMonth (d.year - 1) 13 =
        daysBeforeMonth (d.year - 1) 12 + monthLen (d.year - 1) 12 :=
      daysBeforeMonth_succ (d.year - 1) 12 (by norm_num)
    have hml : monthLen (d.year - 1) 12 = 31 := by norm_num [monthLen]
    refine ⟨⟨(by omega : 1 ≤ d.year - 1), (by norm_num : (1 : ℕ) ≤ 12), le_rfl,
      (by norm_num : (1 : ℕ) ≤ 31), le_of_eq hml.symm⟩, ?_⟩
    show daysBeforeYear (d.year - 1) + daysBeforeMonth (d.year - 1) 12 + 31 + 1 =
      daysBeforeYear d.year + daysBeforeMonth d.year d.month + d.day
    have hb1 : daysBeforeMonth d.year 1 = 0 := daysBeforeMonth_one _
    rw [hme, hde]
    split_ifs at hsy h13 <;> omega

lemma subDays_valid_ordinal {d : Date} (h : d.valid) {n : ℕ} (hn : n < d.ordinal) :
    (subDays d n).valid ∧ (subDays d n).ordinal = d.ordinal - n := by
  induction n generalizing d with
  | zero => exact ⟨h, by simp [subDays]⟩
  | succ k ih =>
      have hne : d ≠ ⟨1, 1, 1⟩ := by
        intro he
        rw [he, ordinal_min] at hn
        omega
      obtain ⟨hv, ho⟩ := prevDay_valid_ordinal h hne
      have hk : k < (prevDay d).ordinal := by omega
      obtain ⟨hv2, ho2⟩ := ih hv hk
      refine ⟨hv2, ?_⟩
      show (subDays (prevDay d) k).ordinal = d.ordinal - (k + 1)
      rw [ho2]
      omega

/-! ## String rendering (ISO dates, `strftime` labels) -/

def pad2 (n : ℕ) : String := if n < 10 then "0" ++ toString n else toString n

def pad4 (n : ℕ) : String :=
  if n < 10 then "000" ++ toString n
  else if n < 100 then "00" ++ toString n
  else if n < 1000 then "0" ++ toString n
  else toString n

/-- `date.isoformat()` / `strftime("%Y-%m-%d")`. -/
def isoDate (d : Date) : String :=
  pad4 d.year ++ "-" ++ pad2 d.month ++ "-" ++ pad2 d.day

/-- `strftime("%Y-%m")`. -/
def isoMonth (d : Date) : String := pad4 d.year ++ "-" ++ pad2 d.month

def weekdayNames : List String :=
  ["Sunday", "Monday", "Tuesday", "Wednesday", "Thursday", "Friday", "Saturday"]

/-- `strftime("%A")`.  Rata-die ordinal 1 (0001-01-01) is a Monday, so the
weekday is the ordinal mod 7 into the Sunday-first name table. -/
def weekdayName (d : Date) : String := weekdayNames.getD (d.ordinal % 7) ""

def monthNames : List String :=
  ["January", "February", "March", "April", "May", "June", "July",
   "August", "September", "October", "November", "December"]

/-- `strftime("%B %Y")`. -/
def monthLabel (d : Date) : String :=
  monthNames.getD (d.month - 1) "" ++ " " ++ pad4 d.year

/-- Python `results_dict.get(key, 0)` over the sparse grouped counts the
aggregation pipeline returns. -/
def lookupD (mp : List (String × ℕ)) (k : String) : ℕ :=
  ((mp.find? (fun p => p.1 == k)).map Prod.snd).getD 0

lemma lookupD_eq_zero (mp : List (String × ℕ)) (k : String)
    (h : ∀ p ∈ mp, p.1 ≠ k) : lookupD mp k = 0 := by
  unfold lookupD
  have : mp.find? (fun p => p.1 == k) = none := by
    rw [List.find?_eq_none]
    intro p hp
    simpa using h p hp
  rw [this]
  rfl

/-! ## Date Bucketer (`get_recent_stats`, server.py lines 147-164)

The `while current_date <= end_date` loop is embedded with an explicit
iteration budget (`fuel`); the top-level wrapper passes the exact number of
iterations the loop performs, `end.ordinal + 1 - start.ordinal`. -/

structure DayStat where
  date : String
  count : ℕ
  day_of_week : String
deriving DecidableEq, Repr

def mkDayStat (mp : List (String × ℕ)) (d : Date) : DayStat :=
  ⟨isoDate d, lookupD mp (isoDate d), weekdayName d⟩

def fillDaysAux (mp : List (String × ℕ)) : ℕ → Date → Date → List DayStat
  | 0, _, _ => []
  | n + 1, cur, last =>
      if cur.le last then mkDayStat mp cur :: fillDaysAux mp n (nextDay cur) last
      else []

/-- The gap-filled per-day bucket sequence of `get_recent_stats`. -/
def recentStats (s e : Date) (mp : List (String × ℕ)) : List DayStat :=
  fillDaysAux mp (e.ordinal + 1 - s.ordinal) s e

/-- `GET /api/stats/recent?days=N` for `N ≥ 1`: the window is the `N`
calendar days ending today (server.py lines 116-117). -/
def getRecentStats (days : ℕ) (today : Date) (mp : List (String × ℕ)) :
    List DayStat :=
  recentStats (subDays today (days - 1)) today mp

/-- Each iteration of the day-filling loop emits the bucket of the current
day and advances one day; with the exact fuel the loop unrolls to a map
over the day offsets `0, 1, ..., n-1`. -/
lemma fillDaysAux_eq (mp : List (String × ℕ)) {e : Date} (he : e.valid) :
    ∀ (n : ℕ) (s : Date), s.valid → e.ordinal + 1 - s.ordinal = n →
      fillDaysAux mp n s e =
        (List.range n).map (fun k => mkDayStat mp (addDays s k)) := by
  intro n
  induction n with
  | zero => intro s _ _; rfl
  | succ k ih =>
      intro s hs hfuel
      have hord : s.ordinal ≤ e.ordinal := by omega
      have hle : s.le e := (le_iff_ordinal_le hs he).mpr hord
      have hnext : e.ordinal + 1 - (nextDay s).ordinal = k := by
        rw [ordinal_nextDay hs]; omega
      show (if s.le e then mkDayStat mp s :: fillDaysAux mp k (nextDay s) e
        else []) = _
      rw [if_pos hle, ih (nextDay s) (nextDay_valid hs) hnext,
        List.range_succ_eq_map, List.map_cons, List.map_map]
      rfl

/-! ## Streak Analyzer (`get_streak_analysis`, server.py lines 253-354) -/

structure DayBucket where
  date : String
  count : ℕ
  is_clean : Bool
deriving DecidableEq, Repr

def mkDayBucket (mp : List (String × ℕ)) (d : Date) : DayBucket :=
  ⟨isoDate d, lookupD mp (isoDate d), lookupD mp (isoDate d) == 0⟩

/-- The day-by-day data the streak endpoint builds (lines 291-301), same
loop shape as the Date Bucketer. -/
def streakDailyAux (mp : List (String × ℕ)) : ℕ → Date → Date → List DayBucket
  | 0, _, _ => []
  | n + 1, cur, last =>
      if cur.le last then mkDayBucket mp cur :: streakDailyAux mp n (nextDay cur) last
      else []

def streakDaily (s e : Date) (mp : List (String × ℕ)) : List DayBucket :=
  streakDailyAux mp (e.ordinal + 1 - s.ordinal) s e

/-- The longest-streak period (JSON keys `start`, `end`, `days`). -/
structure StreakPeriod where
  start : String
  stop : String
  days : ℕ
deriving DecidableEq, Repr

/-- The mutable state of the longest-streak forward scan:
`longest_streak`, `longest_streak_period`, `temp_streak`,
`temp_streak_start` (lines 304-309). -/
structure StreakState where
  longest : ℕ
  period : Option StreakPeriod
  temp : ℕ
  tempStart : Option String
deriving DecidableEq, Repr

def initStreakState : StreakState := ⟨0, none, 0, none⟩

/-- One iteration of the `for day in daily_data` longest-streak scan
(lines 319-334). -/
def streakStep (st : StreakState) (day : DayBucket) : StreakState :=
  if day.is_clean then
    if st.longest < st.temp + 1 then
      ⟨st.temp + 1,
       some ⟨(if st.temp = 0 then some day.date else st.tempStart).getD "",
         day.date, st.temp + 1⟩,
       st.temp + 1,
       if st.temp = 0 then some day.date else st.tempStart⟩
    else ⟨st.longest, st.period, st.temp + 1,
      if st.temp = 0 then some day.date else st.tempStart⟩
  else ⟨st.longest, st.period, 0, none⟩

/-- The backward scan for the current streak (lines 312-316): walk from the
most recent day backwards, counting while clean, stopping at the first
non-clean day. -/
def currentStreakAux : List DayBucket → ℕ
  | [] => 0
  | b :: r => if b.is_clean then currentStreakAux r + 1 else 0

def currentStreak (l : List DayBucket) : ℕ := currentStreakAux l.reverse

/-- The response of `get_streak_analysis` (lines 340-351), minus the
constant `analysis_period` string. -/
structure StreakResult where
  current_days : ℕ
  current_start : Option String
  current_status : String
  longest_days : ℕ
  longest_period : Option StreakPeriod
deriving DecidableEq, Repr

def streakAnalysis (l : List DayBucket) (end_date : Date) : StreakResult :=
  let cs := currentStreak l
  let fs := l.foldl streakStep initStreakState
  ⟨cs,
   if 0 < cs then some (isoDate (subDays end_date (cs - 1))) else none,
   if 0 < cs then "active" else "broken",
   fs.longest,
   fs.period⟩

/-! ## Monthly Trend Classifier (`get_monthly_stats`, server.py lines 356-432) -/

structure MonthBucket where
  month : String
  month_name : String
  count : ℕ
deriving DecidableEq, Repr

def mkMonthBucket (mp : List (String × ℕ)) (d : Date) : MonthBucket :=
  ⟨isoMonth d, monthLabel d, lookupD mp (isoMonth d)⟩

/-- `current_date.replace(year=..., month=...)` advance of the month loop
(lines 406-410): December rolls over to January of the next year. -/
def nextMonth (d : Date) : Date :=
  if d.month = 12 then ⟨d.year + 1, 1, d.day⟩ else ⟨d.year, d.month + 1, d.day⟩

/-- The month-filling `while current_date <= end_date` loop (lines 393-410),
fuel-indexed like the day loop. -/
def fillMonthsAux (mp : List (String × ℕ)) : ℕ → Date → Date → List MonthBucket
  | 0, _, _ => []
  | n + 1, cur, last =>
      if cur.le last then mkMonthBucket mp cur :: fillMonthsAux mp n (nextMonth cur) last
      else []

/-- Linear index of a calendar month. -/
def monthIdx (d : Date) : ℕ := 12 * d.year + d.month

/-- `start_date = (today.replace(day=1) - timedelta(days=30*(months-1)))
.replace(day=1)` (lines 360-362). -/
def trendStart (months : ℕ) (today : Date) : Date :=
  let s1 := subDays ⟨today.year, today.month, 1⟩ (30 * (months - 1))
  ⟨s1.year, s1.month, 1⟩

/-- The gap-filled `monthly_stats` list of `get_monthly_stats`: one bucket
per month from `trendStart` through today (lines 393-410). -/
def monthlyStatsList (months : ℕ) (today : Date) (mp : List (String × ℕ)) :
    List MonthBucket :=
  fillMonthsAux mp (monthIdx today + 1 - monthIdx (trendStart months today))
    (trendStart months today) today

/-- `recent_avg` (line 414): mean of the last `min(3, n)` bucket counts. -/
def recentAvg (counts : List ℕ) : ℚ :=
  ((counts.drop (counts.length - 3)).sum : ℚ) / (min 3 counts.length : ℚ)

/-- `monthly_stats[:-3]` (line 415). -/
def olderPart (counts : List ℕ) : List ℕ := counts.take (counts.length - 3)

/-- `older_avg` (line 415): mean of the last up-to-3 counts that precede the
recent window, divided by `min(3, len(monthly_stats[:-3]))`. -/
def olderAvg (counts : List ℕ) : ℚ :=
  (((olderPart counts).drop ((olderPart counts).length - 3)).sum : ℚ) /
    (min 3 (olderPart counts).length : ℚ)

/-- The trend classification (lines 413-423).  `none` models the
`ZeroDivisionError` raised when `min(3, len(monthly_stats[:-3])) == 0`,
i.e. when `2 <= len(monthly_stats) <= 3`. -/
def monthlyTrend (counts : List ℕ) : Option String :=
  if 2 ≤ counts.length then
    if (olderPart counts).length = 0 then none
    else some (
      if 0 < olderAvg counts then
        (if (recentAvg counts - olderAvg counts) / olderAvg counts * 100 < -10 then
          "improving"
        else if 10 < (recentAvg counts - olderAvg counts) / olderAvg counts * 100 then
          "worsening"
        else "stable")
      else if recentAvg counts = 0 then "improving" else "stable")
  else some "insufficient_data"

structure MonthlyResult where
  monthly_stats : List MonthBucket
  trend : String
  total_period : ℕ
deriving DecidableEq, Repr

/-- The full `get_monthly_stats` response; `none` models the endpoint
failing with the `ZeroDivisionError` of the trend computation. -/
def getMonthlyStats (months : ℕ) (today : Date) (mp : List (String × ℕ)) :
    Option MonthlyResult :=
  let stats := monthlyStatsList months today mp
  (monthlyTrend (stats.map (fun b => b.count))).map
    (fun t => ⟨stats, t, (stats.map (fun b => b.count)).sum⟩)

/-! ## Weekday Profiler (`get_day_of_week_analysis`, server.py lines 169-251) -/

/-- Integer rounding with ties to even, the tie-breaking Python `round`
uses.  Exact rationals stand in for the binary floats of the source. -/
def roundHalfEven (q : ℚ) : ℤ :=
  if q - Int.floor q = 1 / 2 then
    (if Int.floor q % 2 = 0 then Int.floor q else Int.floor q + 1)
  else round q

/-- Python `round(x, 2)`. -/
def round2 (q : ℚ) : ℚ := (roundHalfEven (q * 100) : ℚ) / 100

/-- Python `str()` of a float that carries at most two decimal digits
(e.g. `1.0`, `0.5`, `0.33`); used by the f-string insights. -/
def floatStr2 (q : ℚ) : String :=
  let m : ℤ := Int.floor (q * 100)
  let ip : ℤ := m / 100
  let fp : ℕ := (m % 100).toNat
  if fp = 0 then toString ip ++ ".0"
  else if fp % 10 = 0 then toString ip ++ "." ++ toString (fp / 10)
  else if fp < 10 then toString ip ++ ".0" ++ toString fp
  else toString ip ++ "." ++ toString fp

/-- Python `f"{x:.1f}"`. -/
def floatStr1 (q : ℚ) : String :=
  let m : ℤ := roundHalfEven (q * 10)
  toString (m / 10) ++ "." ++ toString ((m % 10).toNat)

/-- One row of the `$group` by `$dayOfWeek` pipeline result:
`_id` (1=Sunday .. 7=Saturday), `count`, and the pushed date strings. -/
structure MongoDayGroup where
  id : ℕ
  count : ℕ
  dates : List String
deriving DecidableEq, Repr

/-- One entry of `day_analysis` (lines 225-230). -/
structure DayEntry where
  day : String
  day_short : String
  total_count : ℕ
  average_per_day : ℚ
deriving DecidableEq, Repr

/-- Loop body for weekday `i` (0-based; `mongo_day = i + 1`, lines 214-230):
`average_per_day = count / len(set(dates))` when the weekday occurs,
else `0`. -/
def mkDayEntry (results : List MongoDayGroup) (i : ℕ) : DayEntry :=
  match results.find? (fun r => r.id == i + 1) with
  | some r =>
      let uniqueDates := r.dates.dedup.length
      let avg : ℚ := if 0 < uniqueDates then (r.count : ℚ) / uniqueDates else 0
      ⟨weekdayNames.getD i "", (weekdayNames.getD i "").take 3, r.count, round2 avg⟩
  | none => ⟨weekdayNames.getD i "", (weekdayNames.getD i "").take 3, 0, round2 0⟩

def dayAnalysis (results : List MongoDayGroup) : List DayEntry :=
  (List.range 7).map (mkDayEntry results)

/-- Python `max(day_analysis, key=...)`: the first entry with maximal
average (a later tie does not replace the current maximum). -/
def firstMaxByAvg (l : List DayEntry) : DayEntry :=
  l.foldl (fun a x => if a.average_per_day < x.average_per_day then x else a)
    (l.headD ⟨"", "", 0, 0⟩)

/-- Python `min(day_analysis, key=...)`: the first entry with minimal
average. -/
def firstMinByAvg (l : List DayEntry) : DayEntry :=
  l.foldl (fun a x => if x.average_per_day < a.average_per_day then x else a)
    (l.headD ⟨"", "", 0, 0⟩)

/-- The `insights` list (lines 232-242). -/
def insightsOf (da : List DayEntry) : List String :=
  let maxDay := firstMaxByAvg da
  let minDay := firstMinByAvg da
  (if 0 < maxDay.average_per_day then
    ["Your worst day is " ++ maxDay.day ++ " with an average of " ++
      floatStr2 maxDay.average_per_day ++ " bad deeds"]
  else []) ++
  (if minDay.average_per_day = 0 then
    ["You\x27re consistently clean on " ++ minDay.day ++ "s - great job!"]
  else if minDay.average_per_day * 2 < maxDay.average_per_day then
    ["You do " ++ floatStr1 (maxDay.average_per_day / minDay.average_per_day) ++
      "x more bad deeds on " ++ maxDay.day ++ "s than " ++ minDay.day ++ "s"]
  else [])

/-- The pair `(day_analysis, insights)` of the day-of-week response. -/
def getDayOfWeekAnalysis (results : List MongoDayGroup) :
    List DayEntry × List String :=
  (dayAnalysis results, insightsOf (dayAnalysis results))

/-! ## Month-loop unrolling -/

/-- The calendar month with linear index `i` (day pinned to 1). -/
def monthOfIdx (i : ℕ) : Date := ⟨(i - 1) / 12, (i - 1) % 12 + 1, 1⟩

lemma monthOfIdx_monthIdx {d : Date} (hm1 : 1 ≤ d.month) (hm12 : d.month ≤ 12)
    (hd : d.day = 1) : monthOfIdx (monthIdx d) = d := by
  cases d with
  | mk y m dd =>
      simp only [monthOfIdx, monthIdx, Date.mk.injEq] at *
      refine ⟨by omega, by omega, by omega⟩

/-- Snapping a valid date to the first of its month does not increase the
ordinal. -/
lemma ordinal_firstOfMonth_le {d : Date} (hd : 1 ≤ d.day) :
    (Date.mk d.year d.month 1).ordinal ≤ d.ordinal := by
  show daysBeforeYear d.year + daysBeforeMonth d.year d.month + 1 ≤
    daysBeforeYear d.year + daysBeforeMonth d.year d.month + d.day
  omega

lemma monthIdx_le_of_ordinal_le {a b : Date} (ha : a.valid) (hb : b.valid)
    (h : a.ordinal ≤ b.ordinal) : monthIdx a ≤ monthIdx b := by
  by_contra hn
  have hlt : b.lt a := by
    obtain ⟨_, ham1, ham12, _, _⟩ := ha
    obtain ⟨_, hbm1, hbm12, _, _⟩ := hb
    unfold monthIdx at hn
    unfold Date.lt
    omega
  exact absurd h (by have := ordinal_lt_of_lt hb ha hlt; omega)

lemma monthIdx_nextMonth {d : Date} (hm1 : 1 ≤ d.month) (hm12 : d.month ≤ 12) :
    monthIdx (nextMonth d) = monthIdx d + 1 := by
  unfold nextMonth
  split_ifs with h
  · show 12 * (d.year + 1) + 1 = monthIdx d + 1
    unfold monthIdx
    omega
  · show 12 * d.year + (d.month + 1) = monthIdx d + 1
    unfold monthIdx
    omega

/-- Unrolling of the month-filling loop with the exact iteration count. -/
lemma fillMonthsAux_eq (mp : List (String × ℕ)) {last : Date}
    (hlm1 : 1 ≤ last.month) (hlm12 : last.month ≤ 12) (hld : 1 ≤ last.day) :
    ∀ (n : ℕ) (cur : Date), 1 ≤ cur.month → cur.month ≤ 12 → cur.day = 1 →
      monthIdx last + 1 - monthIdx cur = n →
      fillMonthsAux mp n cur last =
        (List.range n).map
          (fun k => mkMonthBucket mp (monthOfIdx (monthIdx cur + k))) := by
  intro n
  induction n with
  | zero => intro cur _ _ _ _; rfl
  | succ k ih =>
      intro cur hc1 hc12 hcd hfuel
      have hle : cur.le last := by
        unfold monthIdx at hfuel
        unfold Date.le
        omega
      have hnm : monthIdx (nextMonth cur) = monthIdx cur + 1 :=
        monthIdx_nextMonth hc1 hc12
      have hn1 : 1 ≤ (nextMonth cur).month := by
        unfold nextMonth; split_ifs <;> simp
      have hn12 : (nextMonth cur).month ≤ 12 := by
        unfold nextMonth
        split_ifs with h
        · show (1 : ℕ) ≤ 12; norm_num
        · show cur.month + 1 ≤ 12; omega
      have hnd : (nextMonth cur).day = 1 := by
        unfold nextMonth; split_ifs <;> exact hcd
      show (if cur.le last then
          mkMonthBucket mp cur :: fillMonthsAux mp k (nextMonth cur) last
        else []) = _
      rw [if_pos hle, ih (nextMonth cur) hn1 hn12 hnd (by omega),
        List.range_succ_eq_map, List.map_cons, List.map_map]
      congr 1
      · rw [Nat.add_zero, monthOfIdx_monthIdx hc1 hc12 hcd]
      · apply List.map_congr_left
        intro j hj
        have : monthIdx (nextMonth cur) + j = monthIdx cur + Nat.succ j := by omega
        simp [Function.comp, this]

/-! ## Claim theorems: Date Bucketer -/

/-- C3 (corrected): the Date Bucketer has no error signal at all.  For an
inverted range (`start_date` after `end_date`) the `while` loop body never
runs and the function returns the empty bucket list; no `RangeError`
exists anywhere in `get_recent_stats`. -/
theorem claimC3_main (s e : Date) (mp : List (String × ℕ))
    (h : ¬ s.le e) : recentStats s e mp = [] := by
  unfold recentStats
  cases hf : e.ordinal + 1 - s.ordinal with
  | zero => rfl
  | succ n =>
      show (if s.le e then _ else []) = []
      rw [if_neg h]

/-- C3 counterexample: on the concrete inverted range 2026-01-02 .. 2026-01-01
the bucketer returns the empty list rather than signalling any error — the
claimed `RangeError` does not exist in the code. -/
theorem claimC3_counterexample :
    recentStats ⟨2026, 1, 2⟩ ⟨2026, 1, 1⟩ [] = [] := by decide

/-- Witness for C3 at a concrete inverted range. -/
theorem claimC3_witness :
    recentStats ⟨2026, 5, 10⟩ ⟨2026, 5, 1⟩ [] = [] :=
  claimC3_main ⟨2026, 5, 10⟩ ⟨2026, 5, 1⟩ [] (by decide)

/-- C7 (confirmed): for `start_date <= end_date` and any sparse mapping,
the Date Bucketer emits exactly `(end - start).days + 1` buckets, whose
dates are precisely the contiguous ascending run of calendar days from
`start_date` to `end_date`, and every date missing from the mapping gets
count 0. -/
theorem claimC7_main (s e : Date) (mp : List (String × ℕ))
    (hs : s.valid) (he : e.valid) (hle : s.le e) :
    (recentStats s e mp).length = e.ordinal - s.ordinal + 1 ∧
    (recentStats s e mp).map (fun st => st.date) =
      (List.range (e.ordinal - s.ordinal + 1)).map
        (fun k => isoDate (addDays s k)) ∧
    addDays s (e.ordinal - s.ordinal) = e ∧
    (∀ st ∈ recentStats s e mp, (∀ p ∈ mp, p.1 ≠ st.date) → st.count = 0) := by
  have hord : s.ordinal ≤ e.ordinal := (le_iff_ordinal_le hs he).mp hle
  have hfuel : e.ordinal + 1 - s.ordinal = e.ordinal - s.ordinal + 1 := by omega
  have hmain : recentStats s e mp =
      (List.range (e.ordinal - s.ordinal + 1)).map
        (fun k => mkDayStat mp (addDays s k)) := by
    unfold recentStats
    rw [hfuel]
    exact fillDaysAux_eq mp he (e.ordinal - s.ordinal + 1) s hs (by omega)
  refine ⟨?_, ?_, ?_, ?_⟩
  · rw [hmain]; simp
  · rw [hmain, List.map_map]; rfl
  · apply ordinal_inj (addDays_valid hs (e.ordinal - s.ordinal)) he
    rw [ordinal_addDays hs]
    omega
  · intro st hst hnone
    rw [hmain] at hst
    obtain ⟨k, hk, hmk⟩ := List.mem_map.mp hst
    rw [← hmk] at hnone ⊢
    exact lookupD_eq_zero mp _ hnone

/-- Witness for C7: a concrete 7-day window with one event on 2026-10-08. -/
theorem claimC7_witness :
    (recentStats ⟨2026, 10, 6⟩ ⟨2026, 10, 12⟩ [("2026-10-08", 2)]).length =
      (Date.ordinal ⟨2026, 10, 12⟩) - (Date.ordinal ⟨2026, 10, 6⟩) + 1 ∧
    (recentStats ⟨2026, 10, 6⟩ ⟨2026, 10, 12⟩ [("2026-10-08", 2)]).map
        (fun st => st.date) =
      (List.range ((Date.ordinal ⟨2026, 10, 12⟩) -
          (Date.ordinal ⟨2026, 10, 6⟩) + 1)).map
        (fun k => isoDate (addDays ⟨2026, 10, 6⟩ k)) ∧
    addDays ⟨2026, 10, 6⟩
        ((Date.ordinal ⟨2026, 10, 12⟩) - (Date.ordinal ⟨2026, 10, 6⟩)) =
      ⟨2026, 10, 12⟩ ∧
    (∀ st ∈ recentStats ⟨2026, 10, 6⟩ ⟨2026, 10, 12⟩ [("2026-10-08", 2)],
      (∀ p ∈ [("2026-10-08", 2)], p.1 ≠ st.date) → st.count = 0) :=
  claimC7_main ⟨2026, 10, 6⟩ ⟨2026, 10, 12⟩ [("2026-10-08", 2)]
    (by decide) (by decide) (by decide)

/-! ## Claim theorems: Monthly Trend Classifier -/

lemma olderPart_length (counts : List ℕ) :
    (olderPart counts).length = counts.length - 3 := by
  simp only [olderPart, List.length_take]
  omega

/-- C1 (corrected): the classifier is total only for `n ≥ 4` monthly
buckets, where it returns one of the three labels.  For `n < 2` it reports
`insufficient_data`.  But for `n = 2` or `n = 3` — values the original
claim asserts are safe — `monthly_stats[:-3]` is empty, the `older_avg`
denominator `min(3, len(monthly_stats[:-3]))` is 0, and the endpoint dies
with a `ZeroDivisionError` (modelled by `none`). -/
theorem claimC1_main :
    (∀ counts : List ℕ, 4 ≤ counts.length →
      ∃ t, monthlyTrend counts = some t ∧
        (t = "improving" ∨ t = "worsening" ∨ t = "stable")) ∧
    (∀ counts : List ℕ, counts.length < 2 →
      monthlyTrend counts = some "insufficient_data") ∧
    (∀ counts : List ℕ, counts.length = 2 ∨ counts.length = 3 →
      monthlyTrend counts = none) := by
  refine ⟨?_, ?_, ?_⟩
  · intro counts h4
    have hlen := olderPart_length counts
    unfold monthlyTrend
    rw [if_pos (by omega : 2 ≤ counts.length),
      if_neg (by omega : ¬ (olderPart counts).length = 0)]
    split_ifs with h1 h2 h3
    · exact ⟨"improving", rfl, Or.inl rfl⟩
    · exact ⟨"worsening", rfl, Or.inr (Or.inl rfl)⟩
    · exact ⟨"stable", rfl, Or.inr (Or.inr rfl)⟩
    · exact ⟨"improving", rfl, Or.inl rfl⟩
    · exact ⟨"stable", rfl, Or.inr (Or.inr rfl)⟩
  · intro counts h2
    unfold monthlyTrend
    rw [if_neg (by omega : ¬ 2 ≤ counts.length)]
  · intro counts h23
    have hlen := olderPart_length counts
    unfold monthlyTrend
    rw [if_pos (by omega : 2 ≤ counts.length),
      if_pos (by omega : (olderPart counts).length = 0)]

/-- C1 counterexample: with exactly two monthly buckets the claimed
"completes without error" fails — the trend computation divides by zero
(the model returns `none`). -/
theorem claimC1_counterexample : monthlyTrend [1, 2] = none := by decide

/-- Witness for C1 at concrete bucket counts of lengths 4, 1 and 3. -/
theorem claimC1_witness :
    (∃ t, monthlyTrend [1, 1, 1, 1] = some t ∧
      (t = "improving" ∨ t = "worsening" ∨ t = "stable")) ∧
    monthlyTrend [7] = some "insufficient_data" ∧
    monthlyTrend [1, 2, 3] = none :=
  ⟨claimC1_main.1 [1, 1, 1, 1] (by norm_num),
   claimC1_main.2.1 [7] (by norm_num),
   claimC1_main.2.2 [1, 2, 3] (Or.inr (by norm_num))⟩

/-- The trend rule exactly as the spec words it, as a function of the two
window averages (claim C6). -/
def specTrend (recent older : ℚ) : String :=
  if older = 0 then (if recent = 0 then "improving" else "stable")
  else if (recent - older) / older * 100 < -10 then "improving"
  else if 10 < (recent - older) / older * 100 then "worsening"
  else "stable"

lemma olderAvg_nonneg (counts : List ℕ) : 0 ≤ olderAvg counts := by
  unfold olderAvg
  apply div_nonneg
  · exact_mod_cast Nat.zero_le _
  · have : (0 : ℚ) ≤ ((min 3 (olderPart counts).length : ℕ) : ℚ) :=
      Nat.cast_nonneg _
    exact_mod_cast this

/-- C6 (confirmed): whenever both window averages are defined (which needs
`n ≥ 4`), the code branch on `older_avg > 0` realises exactly the
spec-side rule keyed on `older_avg == 0` (averages of counts are never
negative), and the two quoted instances come out "improving". -/
theorem claimC6_main :
    (∀ counts : List ℕ, 4 ≤ counts.length →
      monthlyTrend counts =
        some (specTrend (recentAvg counts) (olderAvg counts))) ∧
    monthlyTrend [10, 10, 10, 5, 5, 5] = some "improving" ∧
    monthlyTrend [0, 0, 0, 0, 0, 0] = some "improving" := by
  refine ⟨?_,
    by norm_num [monthlyTrend, recentAvg, olderAvg, olderPart],
    by norm_num [monthlyTrend, recentAvg, olderAvg, olderPart]⟩
  intro counts h4
  have hlen := olderPart_length counts
  have hnn := olderAvg_nonneg counts
  unfold monthlyTrend specTrend
  rw [if_pos (by omega : 2 ≤ counts.length),
    if_neg (by omega : ¬ (olderPart counts).length = 0)]
  by_cases h : olderAvg counts = 0
  · rw [if_pos h, if_neg (show ¬ 0 < olderAvg counts by rw [h]; exact lt_irrefl 0)]
  · rw [if_neg h, if_pos (lt_of_le_of_ne hnn (Ne.symm h))]

/-- Witness for C6 at four concrete buckets. -/
theorem claimC6_witness :
    monthlyTrend [1, 1, 1, 1] =
      some (specTrend (recentAvg [1, 1, 1, 1]) (olderAvg [1, 1, 1, 1])) :=
  claimC6_main.1 [1, 1, 1, 1] (by norm_num)

/-! ## Claim theorems: monthly window (C2) -/

/-- C2 (corrected): the `monthly_stats` list is gap-filled, ascending, one
entry per calendar month with correct December-to-January rollover, from
the computed start month through the current month, and months absent from
the grouped result get count 0.  But the start month is *not* always the
month `N-1` calendar months back: the code subtracts `30*(N-1)` days from
the first of the current month, so the list length is
`monthIdx today - monthIdx start + 1`, which can differ from `N`. -/
theorem claimC2_main (months : ℕ) (today : Date) (mp : List (String × ℕ))
    (hm : 1 ≤ months) (ht : today.valid)
    (hun : 30 * (months - 1) < (Date.mk today.year today.month 1).ordinal) :
    (monthlyStatsList months today mp).map (fun b => b.month) =
      (List.range (monthIdx today + 1 - monthIdx (trendStart months today))).map
        (fun k => isoMonth (monthOfIdx (monthIdx (trendStart months today) + k))) ∧
    (monthlyStatsList months today mp).length =
      monthIdx today + 1 - monthIdx (trendStart months today) ∧
    monthIdx (trendStart months today) ≤ monthIdx today ∧
    (∀ b ∈ monthlyStatsList months today mp,
      (∀ p ∈ mp, p.1 ≠ b.month) → b.count = 0) := by
  have ht0 : (Date.mk today.year today.month 1).valid :=
    ⟨ht.1, ht.2.1, ht.2.2.1, le_rfl, monthLen_pos _ _⟩
  obtain ⟨hsv, hso⟩ := subDays_valid_ordinal ht0 hun
  have htv : (trendStart months today).valid :=
    ⟨hsv.1, hsv.2.1, hsv.2.2.1, le_rfl, monthLen_pos _ _⟩
  have h1 : (trendStart months today).ordinal ≤
      (subDays ⟨today.year, today.month, 1⟩ (30 * (months - 1))).ordinal :=
    ordinal_firstOfMonth_le hsv.2.2.2.1
  have h2 : (Date.mk today.year today.month 1).ordinal ≤ today.ordinal :=
    ordinal_firstOfMonth_le ht.2.2.2.1
  have hidx : monthIdx (trendStart months today) ≤ monthIdx today :=
    monthIdx_le_of_ordinal_le htv ht (by omega)
  have hmain : monthlyStatsList months today mp =
      (List.range (monthIdx today + 1 - monthIdx (trendStart months today))).map
        (fun k => mkMonthBucket mp
          (monthOfIdx (monthIdx (trendStart months today) + k))) :=
    fillMonthsAux_eq mp ht.2.1 ht.2.2.1 ht.2.2.2.1 _ (trendStart months today)
      hsv.2.1 hsv.2.2.1 rfl rfl
  refine ⟨?_, ?_, hidx, ?_⟩
  · rw [hmain, List.map_map]; rfl
  · rw [hmain]; simp
  · intro b hb hnone
    rw [hmain] at hb
    obtain ⟨k, hk, hmk⟩ := List.mem_map.mp hb
    rw [← hmk] at hnone ⊢
    exact lookupD_eq_zero mp _ hnone

/-- C2 counterexample: `months=2` on 2026-03-15 yields THREE monthly
buckets (January through March 2026), not the claimed exactly 2:
`2026-03-01 - 30 days = 2026-01-30`, which snaps to January. -/
theorem claimC2_counterexample :
    (monthlyStatsList 2 ⟨2026, 3, 15⟩ []).length = 3 ∧
    (monthlyStatsList 2 ⟨2026, 3, 15⟩ []).length ≠ 2 := by
  refine ⟨by decide, by decide⟩

/-- Witness for C2: 12 months back from 2026-10-12. -/
theorem claimC2_witness :
    (monthlyStatsList 12 ⟨2026, 10, 12⟩ []).map (fun b => b.month) =
      (List.range (monthIdx ⟨2026, 10, 12⟩ + 1 -
          monthIdx (trendStart 12 ⟨2026, 10, 12⟩))).map
        (fun k => isoMonth (monthOfIdx
          (monthIdx (trendStart 12 ⟨2026, 10, 12⟩) + k))) ∧
    (monthlyStatsList 12 ⟨2026, 10, 12⟩ []).length =
      monthIdx ⟨2026, 10, 12⟩ + 1 - monthIdx (trendStart 12 ⟨2026, 10, 12⟩) ∧
    monthIdx (trendStart 12 ⟨2026, 10, 12⟩) ≤ monthIdx ⟨2026, 10, 12⟩ ∧
    (∀ b ∈ monthlyStatsList 12 ⟨2026, 10, 12⟩ [],
      (∀ p ∈ ([] : List (String × ℕ)), p.1 ≠ b.month) → b.count = 0) :=
  claimC2_main 12 ⟨2026, 10, 12⟩ [] (by norm_num) (by decide) (by decide)

/-! ## Claim theorems: Weekday Profiler -/

lemma round2_zero : round2 0 = 0 := by
  norm_num [round2, roundHalfEven, round_eq]

lemma round2_one : round2 1 = 1 := by
  norm_num [round2, roundHalfEven, round_eq]

/-- The day analysis of a window whose only event fell on a Monday
(Mongo `$dayOfWeek` group `_id = 2`), recorded on one date `d`. -/
lemma dayAnalysis_oneMonday (d : String) : dayAnalysis [⟨2, 1, [d]⟩] =
    [⟨"Sunday", "Sun", 0, 0⟩, ⟨"Monday", "Mon", 1, 1⟩, ⟨"Tuesday", "Tue", 0, 0⟩,
     ⟨"Wednesday", "Wed", 0, 0⟩, ⟨"Thursday", "Thu", 0, 0⟩, ⟨"Friday", "Fri", 0, 0⟩,
     ⟨"Saturday", "Sat", 0, 0⟩] := by
  have hr : List.range 7 = [0, 1, 2, 3, 4, 5, 6] := by decide
  simp [dayAnalysis, hr, mkDayEntry, weekdayNames, List.find?, round2_zero]
  norm_num [round2_one]
  decide

/-- The day analysis of a window with no events at all. -/
lemma dayAnalysis_empty : dayAnalysis [] =
    [⟨"Sunday", "Sun", 0, 0⟩, ⟨"Monday", "Mon", 0, 0⟩, ⟨"Tuesday", "Tue", 0, 0⟩,
     ⟨"Wednesday", "Wed", 0, 0⟩, ⟨"Thursday", "Thu", 0, 0⟩, ⟨"Friday", "Fri", 0, 0⟩,
     ⟨"Saturday", "Sat", 0, 0⟩] := by
  have hr : List.range 7 = [0, 1, 2, 3, 4, 5, 6] := by decide
  simp [dayAnalysis, hr, mkDayEntry, weekdayNames, List.find?, round2_zero]
  decide

/-- C4 (corrected): one event on a Monday yields average 1.0 for Monday
and 0 for the other six weekdays — but TWO insight strings, not one: the
worst-day insight fires for Monday (average 1.0 > 0) and, independently,
the clean-day insight fires for Sunday (the first weekday with average 0).
This matches the spec sentence's own parenthetical "both insights appear". -/
theorem claimC4_main (d : String) :
    (dayAnalysis [⟨2, 1, [d]⟩]).map (fun en => en.average_per_day) =
      [0, 1, 0, 0, 0, 0, 0] ∧
    (firstMaxByAvg (dayAnalysis [⟨2, 1, [d]⟩])).day = "Monday" ∧
    (firstMinByAvg (dayAnalysis [⟨2, 1, [d]⟩])).day = "Sunday" ∧
    (insightsOf (dayAnalysis [⟨2, 1, [d]⟩])).length = 2 := by
  rw [dayAnalysis_oneMonday]
  refine ⟨by norm_num, ?_, ?_, ?_⟩
  · norm_num [firstMaxByAvg]
  · norm_num [firstMinByAvg]
  · norm_num [insightsOf, firstMaxByAvg, firstMinByAvg]

/-- C4 counterexample: at the concrete one-Monday-event input the insight
list has two entries, refuting "exactly one insight string is produced". -/
theorem claimC4_counterexample :
    (insightsOf (dayAnalysis [⟨2, 1, ["2026-09-28"]⟩])).length ≠ 1 ∧
    (insightsOf (dayAnalysis [⟨2, 1, ["2026-09-28"]⟩])).length = 2 := by
  rw [dayAnalysis_oneMonday]
  refine ⟨?_, ?_⟩ <;> norm_num [insightsOf, firstMaxByAvg, firstMinByAvg]

/-- C9 (confirmed, implicit claim): with zero events in the window every
weekday average is 0, the worst-day insight is suppressed (its guard needs
a strictly positive maximum), `min` resolves the all-zero tie to the first
entry of the Sunday-first table, and exactly one insight is emitted: the
"consistently clean" one naming Sunday. -/
theorem claimC9_main :
    insightsOf (dayAnalysis []) =
      ["You\x27re consistently clean on Sundays - great job!"] ∧
    (insightsOf (dayAnalysis [])).length = 1 ∧
    (dayAnalysis []).map (fun en => en.average_per_day) =
      List.replicate 7 0 ∧
    (firstMinByAvg (dayAnalysis [])).day = "Sunday" ∧
    (firstMaxByAvg (dayAnalysis [])).average_per_day = 0 := by
  rw [dayAnalysis_empty]
  refine ⟨?_, ?_, by norm_num [List.replicate], ?_, ?_⟩
  · norm_num [insightsOf, firstMaxByAvg, firstMinByAvg]
    decide
  · norm_num [insightsOf, firstMaxByAvg, firstMinByAvg]
  · norm_num [firstMinByAvg]
  · norm_num [firstMaxByAvg]

/-! ## Claim theorems: Streak Analyzer -/

lemma streakStep_longest_le (st : StreakState) (b : DayBucket) :
    st.longest ≤ (streakStep st b).longest := by
  unfold streakStep
  split_ifs <;> simp <;> omega

lemma foldl_streakStep_longest_le (l : List DayBucket) (st : StreakState) :
    st.longest ≤ (l.foldl streakStep st).longest := by
  induction l generalizing st with
  | nil => exact le_rfl
  | cons b r ih =>
      exact le_trans (streakStep_longest_le st b) (ih (streakStep st b))

lemma streakStep_period_of_longest_eq (st : StreakState) (b : DayBucket)
    (h : (streakStep st b).longest = st.longest) :
    (streakStep st b).period = st.period := by
  unfold streakStep at h ⊢
  split_ifs at h ⊢ <;>
    first
      | rfl
      | (exfalso; simp only [] at h; omega)

/-- The default bucket used to state positional facts with `List.getD`;
all stated indices are in bounds, so its value never matters. -/
def dummyBucket : DayBucket := ⟨"", 0, true⟩

/-- `p` describes `p.days` consecutive clean buckets inside `l`, starting
at the bucket dated `p.start` and ending at the bucket dated `p.stop`. -/
def cleanRunAt (l : List DayBucket) (p : StreakPeriod) : Prop :=
  ∃ i, i + p.days ≤ l.length ∧ 0 < p.days ∧
    (∀ j < p.days, (l.getD (i + j) dummyBucket).is_clean = true) ∧
    (l.getD i dummyBucket).date = p.start ∧
    (l.getD (i + p.days - 1) dummyBucket).date = p.stop

lemma cleanRunAt_append {l : List DayBucket} {p : StreakPeriod}
    (l' : List DayBucket) (h : cleanRunAt l p) : cleanRunAt (l ++ l') p := by
  obtain ⟨i, hlen, hpos, hclean, hstart, hstop⟩ := h
  refine ⟨i, ?_, hpos, ?_, ?_, ?_⟩
  · rw [List.length_append]; omega
  · intro j hj
    rw [List.getD_append _ _ _ _ (by omega)]
    exact hclean j hj
  · rw [List.getD_append _ _ _ _ (by omega)]
    exact hstart
  · rw [List.getD_append _ _ _ _ (by omega)]
    exact hstop

lemma currentStreakAux_cons (b : DayBucket) (r : List DayBucket) :
    currentStreakAux (b :: r) =
      if b.is_clean then currentStreakAux r + 1 else 0 := rfl

lemma currentStreak_append (l : List DayBucket) (b : DayBucket) :
    currentStreak (l ++ [b]) =
      if b.is_clean then currentStreak l + 1 else 0 := by
  unfold currentStreak
  rw [List.reverse_append]
  simp only [List.reverse_singleton, List.singleton_append]
  rw [currentStreakAux_cons]

/-- The loop invariant of the longest-streak forward scan: `temp` is the
length of the trailing clean run (with `temp_streak_start` its first
date), the recorded period is a real clean run of length `longest`, the
period is absent exactly while `longest` is 0, and `temp` never exceeds
`longest`. -/
def StreakInv (l : List DayBucket) (st : StreakState) : Prop :=
  st.temp = currentStreak l ∧
  st.temp ≤ l.length ∧
  (∀ j < st.temp, (l.getD (l.length - st.temp + j) dummyBucket).is_clean = true) ∧
  (0 < st.temp →
    st.tempStart = some ((l.getD (l.length - st.temp) dummyBucket).date)) ∧
  (st.period = none ↔ st.longest = 0) ∧
  (∀ p, st.period = some p → p.days = st.longest ∧ cleanRunAt l p) ∧
  st.temp ≤ st.longest

lemma streakInv_fold (l : List DayBucket) :
    StreakInv l (l.foldl streakStep initStreakState) := by
  induction l using List.reverseRecOn with
  | nil =>
      refine ⟨rfl, le_rfl, ?_, ?_, by simp [initStreakState], ?_, le_rfl⟩
      · intro j hj
        simp [initStreakState] at hj
      · intro h0
        simp [initStreakState] at h0
      · intro p hp
        simp [initStreakState] at hp
  | append_singleton l b ih =>
      obtain ⟨htemp, htlen, hclean, hstart, hnone, hper, htl⟩ := ih
      rw [List.foldl_append]
      set st := l.foldl streakStep initStreakState with hst
      have hlen1 : (l ++ [b]).length = l.length + 1 := by
        simp
      by_cases hb : b.is_clean
      · -- the day is clean: the trailing run grows by one
        have hcs : currentStreak (l ++ [b]) = currentStreak l + 1 := by
          rw [currentStreak_append, if_pos hb]
        have hgetb : (l ++ [b]).getD l.length dummyBucket = b := by
          rw [List.getD_append_right _ _ _ _ le_rfl, Nat.sub_self]
          rfl
        have hcleanNew : ∀ j < st.temp + 1,
            ((l ++ [b]).getD (l.length - st.temp + j)
              dummyBucket).is_clean = true := by
          intro j hj
          rcases Nat.lt_or_ge j st.temp with hlt | hge
          · rw [List.getD_append _ _ _ _ (by omega)]
            exact hclean j hlt
          · have hje : j = st.temp := by omega
            rw [show l.length - st.temp + j = l.length by omega, hgetb]
            exact hb
        have hstartNew :
            (if st.temp = 0 then some b.date else st.tempStart) =
              some (((l ++ [b]).getD (l.length - st.temp)
                dummyBucket).date) := by
          rcases Nat.eq_zero_or_pos st.temp with h0 | h0
          · rw [if_pos h0, show l.length - st.temp = l.length by omega, hgetb]
          · rw [if_neg (by omega), hstart h0,
              List.getD_append _ _ _ _ (by omega)]
        show StreakInv (l ++ [b]) (streakStep st b)
        unfold streakStep
        rw [if_pos hb]
        by_cases hmax : st.longest < st.temp + 1
        · -- new maximum: the period becomes the trailing run
          rw [if_pos hmax]
          refine ⟨?_, ?_, ?_, ?_, ?_, ?_, le_rfl⟩
          · show st.temp + 1 = currentStreak (l ++ [b])
            omega
          · show st.temp + 1 ≤ (l ++ [b]).length
            rw [hlen1]; omega
          · intro j hj
            have hj2 : j < st.temp + 1 := hj
            show ((l ++ [b]).getD ((l ++ [b]).length - (st.temp + 1) + j)
              dummyBucket).is_clean = true
            rw [hlen1,
              show l.length + 1 - (st.temp + 1) = l.length - st.temp by omega]
            exact hcleanNew j hj2
          · intro h0
            show (if st.temp = 0 then some b.date else st.tempStart) =
              some (((l ++ [b]).getD ((l ++ [b]).length - (st.temp + 1))
                dummyBucket).date)
            rw [hlen1,
              show l.length + 1 - (st.temp + 1) = l.length - st.temp by omega]
            exact hstartNew
          · constructor
            · intro h
              exact absurd h (by simp)
            · intro h
              have h2 : st.temp + 1 = 0 := h
              exact absurd h2 (by omega)
          · intro p hp
            have hpe : p = ⟨(if st.temp = 0 then some b.date
                else st.tempStart).getD "", b.date, st.temp + 1⟩ :=
              (Option.some_inj.mp hp).symm
            subst hpe
            refine ⟨rfl, l.length - st.temp, ?_, ?_, ?_, ?_, ?_⟩
            · show l.length - st.temp + (st.temp + 1) ≤ (l ++ [b]).length
              rw [hlen1]; omega
            · show 0 < st.temp + 1
              omega
            · intro j hj
              have hj2 : j < st.temp + 1 := hj
              exact hcleanNew j hj2
            · show ((l ++ [b]).getD (l.length - st.temp) dummyBucket).date =
                (if st.temp = 0 then some b.date else st.tempStart).getD ""
              rw [hstartNew]
              rfl
            · show ((l ++ [b]).getD (l.length - st.temp + (st.temp + 1) - 1)
                dummyBucket).date = b.date
              rw [show l.length - st.temp + (st.temp + 1) - 1 = l.length
                by omega, hgetb]
        · -- run not longer than the maximum: period and longest unchanged
          rw [if_neg hmax]
          refine ⟨?_, ?_, ?_, ?_, hnone, ?_, ?_⟩
          · show st.temp + 1 = currentStreak (l ++ [b])
            omega
          · show st.temp + 1 ≤ (l ++ [b]).length
            rw [hlen1]; omega
          · intro j hj
            have hj2 : j < st.temp + 1 := hj
            show ((l ++ [b]).getD ((l ++ [b]).length - (st.temp + 1) + j)
              dummyBucket).is_clean = true
            rw [hlen1,
              show l.length + 1 - (st.temp + 1) = l.length - st.temp by omega]
            exact hcleanNew j hj2
          · intro h0
            show (if st.temp = 0 then some b.date else st.tempStart) =
              some (((l ++ [b]).getD ((l ++ [b]).length - (st.temp + 1))
                dummyBucket).date)
            rw [hlen1,
              show l.length + 1 - (st.temp + 1) = l.length - st.temp by omega]
            exact hstartNew
          · intro p hp
            obtain ⟨hd, hrun⟩ := hper p hp
            exact ⟨hd, cleanRunAt_append [b] hrun⟩
          · show st.temp + 1 ≤ st.longest
            omega
      · -- the day is not clean: the trailing run resets
        have hcs : currentStreak (l ++ [b]) = 0 := by
          rw [currentStreak_append, if_neg hb]
        show StreakInv (l ++ [b]) (streakStep st b)
        unfold streakStep
        rw [if_neg hb]
        refine ⟨?_, ?_, ?_, ?_, hnone, ?_, ?_⟩
        · show (0 : ℕ) = currentStreak (l ++ [b])
          omega
        · show (0 : ℕ) ≤ (l ++ [b]).length
          omega
        · intro j hj
          have hj2 : j < (0 : ℕ) := hj
          omega
        · intro h0
          have h02 : 0 < (0 : ℕ) := h0
          omega
        · intro p hp
          obtain ⟨hd, hrun⟩ := hper p hp
          exact ⟨hd, cleanRunAt_append [b] hrun⟩
        · show (0 : ℕ) ≤ st.longest
          omega

/-- C5 (confirmed): the longest-streak record is only replaced when a run
strictly exceeds the current maximum — if scanning a suffix never grows
`longest_streak`, the recorded period is untouched, so a later equal-length
clean run never overwrites an earlier one.  On the concrete counts
`[0,0,3,0,0]` the reported period is the first two-day run. -/
theorem claimC5_main :
    (∀ (st : StreakState) (l : List DayBucket),
      (l.foldl streakStep st).longest = st.longest →
      (l.foldl streakStep st).period = st.period) ∧
    (streakAnalysis
      [⟨"2026-01-01", 0, true⟩, ⟨"2026-01-02", 0, true⟩,
       ⟨"2026-01-03", 3, false⟩, ⟨"2026-01-04", 0, true⟩,
       ⟨"2026-01-05", 0, true⟩] ⟨2026, 1, 5⟩).longest_days = 2 ∧
    (streakAnalysis
      [⟨"2026-01-01", 0, true⟩, ⟨"2026-01-02", 0, true⟩,
       ⟨"2026-01-03", 3, false⟩, ⟨"2026-01-04", 0, true⟩,
       ⟨"2026-01-05", 0, true⟩] ⟨2026, 1, 5⟩).longest_period =
      some ⟨"2026-01-01", "2026-01-02", 2⟩ := by
  refine ⟨?_, by decide, by decide⟩
  intro st l
  induction l generalizing st with
  | nil => intro _; rfl
  | cons b r ih =>
      intro h
      rw [List.foldl_cons] at h ⊢
      have h1 : st.longest ≤ (streakStep st b).longest :=
        streakStep_longest_le st b
      have h2 : (streakStep st b).longest ≤
          (r.foldl streakStep (streakStep st b)).longest :=
        foldl_streakStep_longest_le r (streakStep st b)
      have heq : (streakStep st b).longest = st.longest := by omega
      rw [ih (streakStep st b) (by omega)]
      exact streakStep_period_of_longest_eq st b heq

/-- Witness for C5: processing two further clean days from a state whose
maximum is already 2 leaves the recorded period unchanged. -/
theorem claimC5_witness :
    (([⟨"c", 0, true⟩, ⟨"d", 0, true⟩] : List DayBucket).foldl streakStep
        ⟨2, some ⟨"a", "b", 2⟩, 0, none⟩).period = some ⟨"a", "b", 2⟩ :=
  claimC5_main.1 ⟨2, some ⟨"a", "b", 2⟩, 0, none⟩
    [⟨"c", 0, true⟩, ⟨"d", 0, true⟩] (by decide)

set_option maxRecDepth 40000 in
/-- C8 (confirmed): the longest streak is always at least the current
(trailing) streak, and a fully clean 90-day window (2026-01-01 through
2026-03-31 with no events) gives current streak 90 and longest streak 90
spanning the whole window. -/
theorem claimC8_main :
    (∀ (l : List DayBucket) (ed : Date),
      (streakAnalysis l ed).current_days ≤ (streakAnalysis l ed).longest_days) ∧
    (streakDaily ⟨2026, 1, 1⟩ ⟨2026, 3, 31⟩ []).length = 90 ∧
    streakAnalysis (streakDaily ⟨2026, 1, 1⟩ ⟨2026, 3, 31⟩ []) ⟨2026, 3, 31⟩ =
      ⟨90, some "2026-01-01", "active", 90,
        some ⟨"2026-01-01", "2026-03-31", 90⟩⟩ := by
  refine ⟨?_, by decide, by decide⟩
  intro l ed
  obtain ⟨htemp, _, _, _, _, _, htl⟩ := streakInv_fold l
  show currentStreak l ≤ (l.foldl streakStep initStreakState).longest
  omega

/-- C10 (confirmed, implicit claim): in every streak response the longest
period is `null` exactly when the longest streak length is 0; when
present, its `days` equals `longest_streak.days` and it describes an
actual run of that many consecutive clean buckets whose first and last
dates are the period's `start` and `end`. -/
theorem claimC10_main (l : List DayBucket) (ed : Date) :
    ((streakAnalysis l ed).longest_period = none ↔
      (streakAnalysis l ed).longest_days = 0) ∧
    (∀ p, (streakAnalysis l ed).longest_period = some p →
      p.days = (streakAnalysis l ed).longest_days ∧ cleanRunAt l p) := by
  obtain ⟨_, _, _, _, hnone, hper, _⟩ := streakInv_fold l
  exact ⟨hnone, hper⟩

/-- Witness for C10: a one-day clean window has the period
2026-01-01..2026-01-01 of length 1. -/
theorem claimC10_witness :
    (⟨"2026-01-01", "2026-01-01", 1⟩ : StreakPeriod).days =
      (streakAnalysis [⟨"2026-01-01", 0, true⟩] ⟨2026, 1, 1⟩).longest_days ∧
    cleanRunAt [⟨"2026-01-01", 0, true⟩] ⟨"2026-01-01", "2026-01-01", 1⟩ :=
  (claimC10_main [⟨"2026-01-01", 0, true⟩] ⟨2026, 1, 1⟩).2
    ⟨"2026-01-01", "2026-01-01", 1⟩ (by decide)
